import Mathlib

/-!
Verification of the rpki-client certificate parser / coverage validator core
(`validate.c` and `cert.c`) against its natural-language specification.

C strings are modelled as `List Char` (`Str`); a nullable C string is
`Option Str`.  C `int` results 0/1 are kept as `Nat`.  Byte arrays
(IP `min`/`max`) are `List Nat`.
-/

set_option maxRecDepth 10000

namespace Rpki

/-- C `char *` content (no interior NUL bytes are ever relevant here). -/
abbrev Str := List Char

/-- `enum afi` from extern.h: the two address families. -/
inductive Afi where
  | ipv4
  | ipv6
  deriving DecidableEq, Repr

/-- `enum cert_ip_type`. -/
inductive CertIpType where
  | addr
  | range
  | inherit
  deriving DecidableEq, Repr

/-- `enum cert_as_type`. -/
inductive CertAsType where
  | as_id
  | as_range
  | as_inherit
  deriving DecidableEq, Repr

/-- `enum cert_purpose`. `invalid` stands for the default / failed
`x509_get_purpose` result rejected by `cert_parse_inner`. -/
inductive CertPurpose where
  | ca
  | bgpsec_router
  | invalid
  deriving DecidableEq, Repr

/-- `struct ip_addr`: a raw address with its prefix length, as carried in
the union members of `struct cert_ip`. -/
structure IpAddr where
  prefixlen : Nat
  addr : List Nat
  deriving DecidableEq, Repr

/-- The active member of the union inside `struct cert_ip`.  In C the union
shares storage, so exactly one member is meaningful, selected by `type`;
here the payload is a sum and `type` is derived from it. -/
inductive IpPayload where
  | addr (a : IpAddr)
  | range (minAddr maxAddr : IpAddr)
  | inherit
  deriving DecidableEq, Repr

/-- `struct cert_ip`: AFI, the canonical `min`/`max` byte arrays (16 bytes,
zeroed by `memset` for inherit entries), and the union payload. -/
structure CertIp where
  afi : Afi
  min : List Nat
  max : List Nat
  payload : IpPayload
  deriving DecidableEq, Repr

/-- The `type` discriminant of a `struct cert_ip`, as stored in the C enum
field. -/
def CertIp.type (ip : CertIp) : CertIpType :=
  match ip.payload with
  | .addr _ => .addr
  | .range _ _ => .range
  | .inherit => .inherit

/-- `struct cert_as`: the enum discriminant together with the active union
member (`id` for a single AS, `min`/`max` for a range, nothing for
inherit). -/
inductive CertAs where
  | as_id (id : Nat)
  | as_range (min max : Nat)
  | as_inherit
  deriving DecidableEq, Repr

/-- The `type` discriminant of a `struct cert_as`. -/
def CertAs.type : CertAs → CertAsType
  | .as_id _ => .as_id
  | .as_range _ _ => .as_range
  | .as_inherit => .as_inherit

/-- `struct cert`: the parsed certificate record.  `ipsz`/`asz` are the
lengths of the `ips`/`as` lists; the nullable strings are `Option Str`. -/
structure Cert where
  valid : Int
  expires : Int
  purpose : CertPurpose
  ips : List CertIp
  as : List CertAs
  mft : Option Str
  notify : Option Str
  repo : Option Str
  crl : Option Str
  aia : Option Str
  aki : Option Str
  ski : Option Str
  tal : Option Str
  pubkey : Option Str
  deriving DecidableEq, Repr

/-! ## Character classification (ctype, ASCII / C locale) -/

/-- C `isalnum` in the C locale (ASCII letters and digits). -/
def c_isalnum (c : Char) : Bool :=
  ('0' ≤ c && c ≤ '9') || ('A' ≤ c && c ≤ 'Z') || ('a' ≤ c && c ≤ 'z')

/-- C `ispunct` in the C locale: printable, not space, not alphanumeric. -/
def c_ispunct (c : Char) : Bool :=
  ('!' ≤ c && c ≤ '/') || (':' ≤ c && c ≤ '@') ||
  ('[' ≤ c && c ≤ '\x60') || ('\x7b' ≤ c && c ≤ '~')

/-- ASCII `tolower`, as used by `strcasecmp`/`strncasecmp`. -/
def c_tolower (c : Char) : Char :=
  if 'A' ≤ c && c ≤ 'Z' then Char.ofNat (c.toNat + 32) else c

/-- `strcasecmp(a, b) == 0`: the two strings are equal after ASCII
lowercasing. -/
def str_casecmp_eq (a b : Str) : Bool :=
  a.map c_tolower == b.map c_tolower

/-- `strncasecmp(a, b, n) == 0` where `n = b.length` (comparing against a
fixed protocol literal): the first `b.length` characters of `a` match `b`
case-insensitively.  If `a` is shorter the NUL terminator mismatches. -/
def strn_casecmp_eq (a b : Str) : Bool :=
  (a.take b.length).map c_tolower == b.map c_tolower

/-- Index of the first occurrence of `c` in `s` (`strchr`, as an offset;
`none` for a NULL result). -/
def strchr_idx : Str → Char → Option Nat
  | [], _ => none
  | a :: rest, c =>
    if a == c then some 0 else (strchr_idx rest c).map (· + 1)

/-- Index of the last occurrence of `c` in `s` (`strrchr`, as an offset;
`none` for a NULL result). -/
def strrchr_idx : Str → Char → Option Nat
  | [], _ => none
  | a :: rest, c =>
    match strrchr_idx rest c with
    | some i => some (i + 1)
    | none => if a == c then some 0 else none

/-! ## `valid_filename` (validate.c) -/

/-- The character test of the `valid_filename` loop:
`isalnum(*c) || *c == '-' || *c == '_' || *c == '.'`. -/
def filename_char_ok (c : Char) : Bool :=
  c_isalnum c || c == '-' || c == '_' || c == '.'

/-- `valid_filename` from validate.c: length at least 5, every character
alphanumeric or `-`/`_`/`.`, first and last `.` coincide, and the last four
characters case-insensitively one of `.cer` `.crl` `.gbr` `.roa`. -/
def valid_filename (fn : Str) : Nat :=
  if fn.length < 5 then 0
  else if !(fn.all filename_char_ok) then 0
  else if strchr_idx fn '.' ≠ strrchr_idx fn '.' then 0
  else if str_casecmp_eq (fn.drop (fn.length - 4)) ".cer".toList then 1
  else if str_casecmp_eq (fn.drop (fn.length - 4)) ".crl".toList then 1
  else if str_casecmp_eq (fn.drop (fn.length - 4)) ".gbr".toList then 1
  else if str_casecmp_eq (fn.drop (fn.length - 4)) ".roa".toList then 1
  else 0

/-- The specification's predicate on filenames: length at least 5, only
characters from `[A-Za-z0-9._-]`, exactly one dot, and a case-insensitive
extension among `.cer` `.crl` `.gbr` `.roa`. -/
def filename_spec (fn : Str) : Prop :=
  5 ≤ fn.length ∧
  (∀ c ∈ fn, filename_char_ok c = true) ∧
  fn.count '.' = 1 ∧
  ((fn.drop (fn.length - 4)).map c_tolower = ".cer".toList ∨
   (fn.drop (fn.length - 4)).map c_tolower = ".crl".toList ∨
   (fn.drop (fn.length - 4)).map c_tolower = ".gbr".toList ∨
   (fn.drop (fn.length - 4)).map c_tolower = ".roa".toList)

instance : DecidablePred filename_spec := by
  intro fn
  unfold filename_spec
  infer_instance

/-! ## Authority chains (struct auth) and the coverage walk (validate.c)

A `struct auth` is a node holding the file name, the TAL identifier and the
parsed certificate, plus a parent pointer.  The pointer chain from an auth
up to its trust-anchor root is embedded as a list of nodes whose head is
the auth itself; the NULL pointer is the empty list. -/

/-- One `struct auth` node (without its parent pointer). -/
structure AuthNode where
  fn : Str
  tal : Str
  cert : Cert
  deriving DecidableEq, Repr

/-- An authority together with its ancestor chain: the head is the
authority itself, the tail its parent chain, `[]` is the NULL pointer. -/
abbrev AuthChain := List AuthNode

/-- The authority tree: each stored authority is kept with its (resolved)
parent chain. -/
abbrev AuthTree := List AuthChain

/-- The SKI under which a chain's head authority is keyed in the tree. -/
def chain_ski : AuthChain → Option Str
  | [] => none
  | n :: _ => n.cert.ski

/-- The TAL identifier of a chain's head authority (`a->tal`). -/
def chain_tal : AuthChain → Option Str
  | [] => none
  | n :: _ => some n.tal

/-- `auth_find` from cert.c: look up the authority whose certificate's SKI
equals the given key (the C code builds a probe cert with `ski = aki` and
searches the red-black tree by `strcmp` on SKI). -/
def auth_find (t : AuthTree) (key : Option Str) : Option AuthChain :=
  t.find? (fun ch => chain_ski ch == key)

/-- Modelled from the spec: `as_check_covered` (as.c, not part of the
sources here).  The three-valued containment test on an AS set: an inherit
entry means the set has nothing authoritative to say (0); a non-inheriting
entry whose `[min,max]` interval contains the query means covered (1);
a present non-inheriting set none of whose entries contains the query
means refused (-1). -/
def as_check_covered (mn mx : Nat) : List CertAs → Int
  | [] => -1
  | a :: rest =>
    match a with
    | .as_inherit => 0
    | .as_id i => if mn ≥ i && mx ≤ i then 1 else as_check_covered mn mx rest
    | .as_range amn amx =>
      if mn ≥ amn && mx ≤ amx then 1 else as_check_covered mn mx rest

/-- Number of address bytes compared for an AFI (4 for IPv4, 16 for
IPv6). -/
def afi_size : Afi → Nat
  | .ipv4 => 4
  | .ipv6 => 16

/-- `memcmp(a, b, sz) <= 0`: lexicographic byte comparison of the first
`sz` bytes. -/
def bytes_le (a b : List Nat) (sz : Nat) : Bool :=
  decide ((a.take sz) ≤ (b.take sz))

/-- Loop of `ip_addr_check_covered`: `found` records whether a
non-inheriting entry of the queried AFI has been seen. -/
def ip_check_loop (afi : Afi) (mn mx : List Nat) :
    List CertIp → Bool → Int
  | [], found => if found then -1 else 0
  | e :: rest, found =>
    if e.afi ≠ afi then ip_check_loop afi mn mx rest found
    else if e.type = CertIpType.inherit then 0
    else if bytes_le e.min mn (afi_size afi) && bytes_le mx e.max (afi_size afi)
    then 1
    else ip_check_loop afi mn mx rest true

/-- Modelled from the spec: `ip_addr_check_covered` (ip.c, not part of the
sources here).  Three-valued containment for an IP query against a
certificate's IP set: covered (1) when some non-inheriting entry of the
same AFI byte-wise contains `[mn,mx]`; indeterminate (0) when the set only
inherits for this AFI or has nothing for this AFI at all; refused (-1)
when a non-inheriting set for this AFI is present but no entry contains
the query. -/
def ip_addr_check_covered (afi : Afi) (mn mx : List Nat)
    (ips : List CertIp) : Int :=
  ip_check_loop afi mn mx ips false

/-- `valid_as` from validate.c: walk up the chain; a certificate with a
non-empty AS set is consulted, a positive answer accepts, a negative
answer rejects, otherwise (and for an empty AS set) the walk continues at
the parent; a NULL parent rejects. -/
def valid_as : AuthChain → Nat → Nat → Nat
  | [], _, _ => 0
  | n :: rest, mn, mx =>
    if n.cert.as.length ≠ 0 then
      let c := as_check_covered mn mx n.cert.as
      if c > 0 then 1
      else if c < 0 then 0
      else valid_as rest mn mx
    else valid_as rest mn mx

/-- `valid_ip` from validate.c: walk up the chain consulting
`ip_addr_check_covered` at each ancestor; positive accepts, negative
rejects, indeterminate continues at the parent; a NULL parent rejects. -/
def valid_ip : AuthChain → Afi → List Nat → List Nat → Nat
  | [], _, _, _ => 0
  | n :: rest, afi, mn, mx =>
    let c := ip_addr_check_covered afi mn mx n.cert.ips
    if c > 0 then 1
    else if c < 0 then 0
    else valid_ip rest afi mn mx

/-- The three possible answers of the containment consultation, as the
specification words them. -/
inductive Cover where
  | covered
  | refused
  | indeterminate
  deriving DecidableEq, Repr

/-- The specification's answer of one ancestor for an AS query: an empty
AS set is indeterminate, otherwise the three-valued containment test
decides. -/
def as_answer (c : Cert) (mn mx : Nat) : Cover :=
  if c.as.length = 0 then .indeterminate
  else if as_check_covered mn mx c.as > 0 then .covered
  else if as_check_covered mn mx c.as < 0 then .refused
  else .indeterminate

/-- The specification's answer of one ancestor for an IP query. -/
def ip_answer (c : Cert) (afi : Afi) (mn mx : List Nat) : Cover :=
  if ip_addr_check_covered afi mn mx c.ips > 0 then .covered
  else if ip_addr_check_covered afi mn mx c.ips < 0 then .refused
  else .indeterminate

/-- The specification's walk: the first definitive answer decides; an
exhausted chain (NULL parent reached) rejects. -/
def first_definite : List Cover → Bool
  | [] => false
  | Cover.covered :: _ => true
  | Cover.refused :: _ => false
  | Cover.indeterminate :: rest => first_definite rest

/-! ## `valid_ski_aki`, `valid_ta`, `valid_roa` (validate.c) -/

/-- `valid_ski_aki` from validate.c: reject a duplicate SKI, then return
the parent authority found by AKI (or NULL). -/
def valid_ski_aki (_fn : Str) (t : AuthTree) (ski aki : Option Str) :
    Option AuthChain :=
  if (auth_find t ski).isSome then none
  else auth_find t aki

/-- `valid_ta` from validate.c: reject when the AS set is non-empty with an
inherit entry at index 0, when any IP entry inherits, or when the SKI is
already in the tree; accept otherwise. -/
def valid_ta (_fn : Str) (t : AuthTree) (c : Cert) : Nat :=
  if (match c.as.head? with
      | some a0 => a0.type == CertAsType.as_inherit
      | none => false) then 0
  else if c.ips.any (fun ip => ip.type == CertIpType.inherit) then 0
  else if (auth_find t c.ski).isSome then 0
  else 1

/-- One IP entry of `struct roa`: AFI, the `min`/`max` byte arrays and the
address payload. -/
structure RoaIp where
  afi : Afi
  min : List Nat
  max : List Nat
  addr : IpAddr
  deriving DecidableEq, Repr

/-- The fields of `struct roa` used by `valid_roa`. -/
structure Roa where
  ski : Option Str
  aki : Option Str
  tal : Option Str
  ips : List RoaIp
  deriving DecidableEq, Repr

/-- The coverage loop of `valid_roa`: every ROA IP entry must pass
`valid_ip` against the parent chain (the loop returns 0 at the first
uncovered entry). -/
def roa_ips_covered (a : AuthChain) : List RoaIp → Bool
  | [] => true
  | ip :: rest =>
    if valid_ip a ip.afi ip.min ip.max = 1 then roa_ips_covered a rest
    else false

/-- `valid_roa` from validate.c, with the mutation of `roa->tal` made
explicit: the result is the returned int together with the (possibly
updated) ROA record.  After a successful parent lookup the ROA's `tal` is
set to the parent's TAL before the coverage loop runs. -/
def valid_roa (fn : Str) (t : AuthTree) (roa : Roa) : Nat × Roa :=
  match valid_ski_aki fn t roa.ski roa.aki with
  | none => (0, roa)
  | some a =>
    let roa' := { roa with tal := chain_tal a }
    if roa_ips_covered a roa.ips then (1, roa') else (0, roa')

/-! ## `valid_uri` (validate.c) and the SIA sub-parsers (cert.c) -/

/-- `strstr(hay, needle) != NULL`: the needle occurs somewhere in the
haystack. -/
def has_substr (needle : Str) : Str → Bool
  | [] => needle.isPrefixOf []
  | c :: rest => needle.isPrefixOf (c :: rest) || has_substr needle rest

/-- `valid_uri` from validate.c: every byte alphanumeric or punctuation,
an optional case-insensitive protocol match, and no `/.` substring. -/
def valid_uri (uri : Str) (proto : Option Str) : Nat :=
  if !(uri.all (fun c => c_isalnum c || c_ispunct c)) then 0
  else if (match proto with
           | some pr => !(strn_casecmp_eq uri pr)
           | none => false) then 0
  else if has_substr "/.".toList uri then 0
  else 1

/-- The three SIA string slots of the in-progress `struct cert` that
`sbgp_sia_resource` fills in. -/
structure SiaState where
  mft : Option Str
  notify : Option Str
  repo : Option Str
  deriving DecidableEq, Repr

/-- The recognized accessDescription OIDs (caRepository, rpkiManifest,
rpkiNotify) plus the silently ignored rest. -/
inductive SiaOid where
  | carepo
  | mft
  | notify
  | other
  deriving DecidableEq, Repr

/-- One structurally parsed accessDescription: its OID and the framed
payload bytes. -/
structure SiaEntry where
  oid : SiaOid
  d : Str
  deriving DecidableEq, Repr

/-- `sbgp_sia_resource_notify` from cert.c: reject a duplicate, require an
`https://` URI, store. -/
def sbgp_sia_resource_notify (st : SiaState) (d : Str) : Option SiaState :=
  if st.notify ≠ none then none
  else if valid_uri d (some "https://".toList) ≠ 1 then none
  else some { st with notify := some d }

/-- `sbgp_sia_resource_mft` from cert.c: reject a duplicate, require an
`rsync://` URI whose last four characters are case-insensitively `.mft`,
store. -/
def sbgp_sia_resource_mft (st : SiaState) (d : Str) : Option SiaState :=
  if st.mft ≠ none then none
  else if valid_uri d (some "rsync://".toList) ≠ 1 then none
  else if d.length < 4 || !(str_casecmp_eq (d.drop (d.length - 4)) ".mft".toList)
  then none
  else some { st with mft := some d }

/-- `sbgp_sia_resource_carepo` from cert.c: reject a duplicate, require an
`rsync://` URI, store. -/
def sbgp_sia_resource_carepo (st : SiaState) (d : Str) : Option SiaState :=
  if st.repo ≠ none then none
  else if valid_uri d (some "rsync://".toList) ≠ 1 then none
  else some { st with repo := some d }

/-- `sbgp_sia_resource_entry` from cert.c, after the structural ASN.1
checks: dispatch on the OID; unrecognized OIDs are silently accepted. -/
def sbgp_sia_resource_entry (st : SiaState) (e : SiaEntry) :
    Option SiaState :=
  match e.oid with
  | .carepo => sbgp_sia_resource_carepo st e.d
  | .mft => sbgp_sia_resource_mft st e.d
  | .notify => sbgp_sia_resource_notify st e.d
  | .other => some st

/-- Outcome of `sbgp_sia_resource`: success with the final state, a
failure return (rc 0), or the undefined behaviour of calling
`strstr` with a NULL argument in the final comparison. -/
inductive SiaResult where
  | ok (st : SiaState)
  | fail
  | crash
  deriving DecidableEq, Repr

/-- The entry loop of `sbgp_sia_resource`: entries are processed in order,
the first failing entry aborts with rc 0. -/
def sbgp_sia_loop (st : SiaState) : List SiaEntry → Option SiaState
  | [] => some st
  | e :: rest =>
    match sbgp_sia_resource_entry st e with
    | none => none
    | some st' => sbgp_sia_loop st' rest

/-- `sbgp_sia_resource` from cert.c over the structurally parsed entry
list: run the entry loop, then evaluate
`strstr(p->res->mft, p->res->repo) != p->res->mft`.  The C code performs
that call without a NULL check; when either string was never set the call
is undefined behaviour, modelled as `crash`.  With both present the test
accepts exactly when `repo` is a byte-prefix of `mft`. -/
def sbgp_sia_resource (entries : List SiaEntry) : SiaResult :=
  match sbgp_sia_loop ⟨none, none, none⟩ entries with
  | none => .fail
  | some st =>
    match st.mft, st.repo with
    | some m, some r => if r.isPrefixOf m then .ok st else .fail
    | _, _ => .crash

/-! ## The IPC serializer (cert.c: `cert_buffer` / `cert_read`)

The byte stream is modelled as a list of typed tokens, one per primitive
`io_simple_buffer` / `io_str_buffer` write; `io_read_buf` / `io_read_str`
pop the matching token.  `io_str_buffer` writes a NULL string exactly like
the empty string (length 0), and `io_read_str` returns NULL for length 0,
so the string token carries the raw (possibly empty) character data. -/

/-- One primitive write to the IPC buffer. -/
inductive Tok where
  | tint (v : Int)
  | ttime (v : Int)
  | tpurpose (v : CertPurpose)
  | tsize (v : Nat)
  | tafi (v : Afi)
  | tiptype (v : CertIpType)
  | tastype (v : CertAsType)
  | tu32 (v : Nat)
  | tu8 (v : Nat)
  | tbytes (v : List Nat)
  | tstr (v : Str)
  deriving DecidableEq, Repr

/-- The all-zero 16-byte array that `calloc` leaves in the `min`/`max`
fields of an inherit entry on the reading side. -/
def zeros16 : List Nat := List.replicate 16 0

/-- Modelled from the spec: `ip_addr_buffer` (ip.c, not part of the
sources here) writes the prefix length and the raw address bytes. -/
def ip_addr_buffer (a : IpAddr) : List Tok :=
  [.tu8 a.prefixlen, .tbytes a.addr]

/-- Modelled from the spec: `ip_addr_read`, mirroring `ip_addr_buffer`. -/
def ip_addr_read : List Tok → Option (IpAddr × List Tok)
  | Tok.tu8 pl :: Tok.tbytes ad :: rest => some (⟨pl, ad⟩, rest)
  | _ => none

/-- Modelled from the spec: `ip_addr_range_buffer` writes the two
endpoint addresses. -/
def ip_addr_range_buffer (mn mx : IpAddr) : List Tok :=
  ip_addr_buffer mn ++ ip_addr_buffer mx

/-- `io_str_buffer`: a NULL string is written with length 0, i.e. exactly
like the empty string. -/
def io_str_buffer (s : Option Str) : List Tok :=
  [.tstr (match s with | none => [] | some v => v)]

/-- `io_read_str`: length 0 yields NULL. -/
def io_read_str : List Tok → Option (Option Str × List Tok)
  | Tok.tstr v :: rest => some ((if v = [] then none else some v), rest)
  | _ => none

/-- `cert_ip_buffer` from cert.c: AFI and type always; `min`/`max` bytes
unless inherit; then the range or address payload. -/
def cert_ip_buffer (p : CertIp) : List Tok :=
  [.tafi p.afi, .tiptype p.type] ++
  (if p.type ≠ CertIpType.inherit then [.tbytes p.min, .tbytes p.max] else []) ++
  (match p.payload with
   | .range mn mx => ip_addr_range_buffer mn mx
   | .addr a => ip_addr_buffer a
   | .inherit => [])

/-- `cert_ip_read` from cert.c, mirroring `cert_ip_buffer`; for an inherit
entry the `min`/`max` fields keep their `calloc` zeros. -/
def cert_ip_read : List Tok → Option (CertIp × List Tok)
  | Tok.tafi afi :: Tok.tiptype ty :: rest =>
    match ty with
    | CertIpType.inherit => some (⟨afi, zeros16, zeros16, .inherit⟩, rest)
    | CertIpType.range =>
      match rest with
      | Tok.tbytes mn :: Tok.tbytes mx :: rest2 =>
        match ip_addr_read rest2 with
        | some (amn, rest3) =>
          match ip_addr_read rest3 with
          | some (amx, rest4) => some (⟨afi, mn, mx, .range amn amx⟩, rest4)
          | none => none
        | none => none
      | _ => none
    | CertIpType.addr =>
      match rest with
      | Tok.tbytes mn :: Tok.tbytes mx :: rest2 =>
        match ip_addr_read rest2 with
        | some (a, rest3) => some (⟨afi, mn, mx, .addr a⟩, rest3)
        | none => none
      | _ => none
  | _ => none

/-- `cert_as_buffer` from cert.c: the type, then two u32 for a range, one
u32 for a single id, nothing for inherit. -/
def cert_as_buffer (p : CertAs) : List Tok :=
  [.tastype p.type] ++
  (match p with
   | .as_range mn mx => [.tu32 mn, .tu32 mx]
   | .as_id i => [.tu32 i]
   | .as_inherit => [])

/-- `cert_as_read` from cert.c, mirroring `cert_as_buffer`. -/
def cert_as_read : List Tok → Option (CertAs × List Tok)
  | Tok.tastype ty :: rest =>
    match ty with
    | CertAsType.as_range =>
      match rest with
      | Tok.tu32 mn :: Tok.tu32 mx :: rest2 => some (.as_range mn mx, rest2)
      | _ => none
    | CertAsType.as_id =>
      match rest with
      | Tok.tu32 i :: rest2 => some (.as_id i, rest2)
      | _ => none
    | CertAsType.as_inherit => some (.as_inherit, rest)
  | _ => none

/-- Read `n` consecutive records with the element reader `rd`. -/
def readN {α : Type} (rd : List Tok → Option (α × List Tok)) :
    Nat → List Tok → Option (List α × List Tok)
  | 0, ts => some ([], ts)
  | n + 1, ts =>
    match rd ts with
    | some (a, ts') =>
      match readN rd n ts' with
      | some (as_, ts'') => some (a :: as_, ts'')
      | none => none
    | none => none

/-- `cert_buffer` from cert.c: `valid`, `expires`, `purpose`, `ipsz` and
the IP entries, `asz` and the AS entries, then the nine strings in fixed
order. -/
def cert_buffer (p : Cert) : List Tok :=
  [.tint p.valid, .ttime p.expires, .tpurpose p.purpose,
   .tsize p.ips.length] ++
  (p.ips.map cert_ip_buffer).flatten ++
  [.tsize p.as.length] ++
  (p.as.map cert_as_buffer).flatten ++
  io_str_buffer p.mft ++ io_str_buffer p.notify ++ io_str_buffer p.repo ++
  io_str_buffer p.crl ++ io_str_buffer p.aia ++ io_str_buffer p.aki ++
  io_str_buffer p.ski ++ io_str_buffer p.tal ++ io_str_buffer p.pubkey

/-- `cert_read` from cert.c, mirroring `cert_buffer`; the two trailing
`assert`s (an mft must be present except for a BGPsec router certificate,
and the SKI must be present) are modelled as read failure. -/
def cert_read (ts : List Tok) : Option (Cert × List Tok) :=
  match ts with
  | Tok.tint valid :: Tok.ttime expires :: Tok.tpurpose purpose ::
    Tok.tsize ipsz :: rest =>
    match readN cert_ip_read ipsz rest with
    | some (ips, rest2) =>
      match rest2 with
      | Tok.tsize asz :: rest3 =>
        match readN cert_as_read asz rest3 with
        | some (ass, rest4) =>
          match io_read_str rest4 with
          | some (mft, r1) =>
            match io_read_str r1 with
            | some (notify, r2) =>
              match io_read_str r2 with
              | some (repo, r3) =>
                match io_read_str r3 with
                | some (crl, r4) =>
                  match io_read_str r4 with
                  | some (aia, r5) =>
                    match io_read_str r5 with
                    | some (aki, r6) =>
                      match io_read_str r6 with
                      | some (ski, r7) =>
                        match io_read_str r7 with
                        | some (tal, r8) =>
                          match io_read_str r8 with
                          | some (pubkey, r9) =>
                            if mft = none ∧ purpose ≠ CertPurpose.bgpsec_router
                            then none
                            else if ski = none then none
                            else some
                              (⟨valid, expires, purpose, ips, ass, mft,
                                notify, repo, crl, aia, aki, ski, tal,
                                pubkey⟩, r9)
                          | none => none
                        | none => none
                      | none => none
                    | none => none
                  | none => none
                | none => none
              | none => none
            | none => none
          | none => none
        | none => none
      | _ => none
    | none => none
  | _ => none

/-! ## The BRK set (cert.c: `insert_brk`, `cert_insert_brks`) -/

/-- `struct brk`: one BGPsec router key binding. -/
structure Brk where
  asid : Nat
  ski : Str
  pubkey : Str
  tal : Str
  expires : Int
  deriving DecidableEq, Repr

/-- The ordering key of the `brk_tree` red-black tree (`brkcmp`):
`(asid, ski, pubkey)`. -/
def brk_key (b : Brk) : Nat × Str × Str :=
  (b.asid, b.ski, b.pubkey)

/-- The content of a nullable certificate string under the C `strdup`
calls of `insert_brk` (which require the field to be non-NULL). -/
def str_of (o : Option Str) : Str :=
  match o with
  | some s => s
  | none => []

/-- `insert_brk` from cert.c: build the new record from the certificate;
`RB_INSERT` either inserts it (no entry with the same key) or returns the
existing entry, which is updated to the new expiry and TAL exactly when it
expires sooner; otherwise the tree is unchanged and the new record is
dropped. -/
def insert_brk (tree : List Brk) (cert : Cert) (asid : Nat) : List Brk :=
  let b : Brk :=
    ⟨asid, str_of cert.ski, str_of cert.pubkey, str_of cert.tal,
     cert.expires⟩
  match tree.find? (fun e => decide (brk_key e = brk_key b)) with
  | none => tree ++ [b]
  | some found =>
    if found.expires < b.expires then
      tree.map (fun e =>
        if brk_key e = brk_key b
        then { e with expires := b.expires, tal := b.tal }
        else e)
    else tree

/-- The ascending AS-id list walked by the range loop of
`cert_insert_brks` (`for (asid = min; asid <= max; asid++)`). -/
def range_asids (mn mx : Nat) : List Nat :=
  List.range' mn (mx + 1 - mn)

/-- `cert_insert_brks` from cert.c: one `insert_brk` per single AS id, one
per AS number of an expanded range, none for other entry types. -/
def cert_insert_brks (tree : List Brk) (cert : Cert) : List Brk :=
  cert.as.foldl (fun t a =>
    match a with
    | CertAs.as_id i => insert_brk t cert i
    | CertAs.as_range mn mx =>
      (range_asids mn mx).foldl (fun t2 asid => insert_brk t2 cert asid) t
    | CertAs.as_inherit => t) tree

/-- The number of `insert_brk` calls a `cert_insert_brks` run performs:
one per single id entry, one per AS number of a range entry. -/
def brk_insert_count (cert : Cert) : Nat :=
  cert.as.foldl (fun n a =>
    n + match a with
        | CertAs.as_id _ => 1
        | CertAs.as_range mn mx => (range_asids mn mx).length
        | CertAs.as_inherit => 0) 0

/-! ## Post-extension validation of `cert_parse_inner` (cert.c)

The tail of `cert_parse_inner` (after all extensions have been walked)
populates `aki`, `ski` and, only for a non-TA, `aia` and `crl`, then runs
the required-field checks.  It is embedded as a function of the values the
X.509 helpers returned and of the extension-walk results. -/

/-- The inputs of the post-extension phase: the `is_ta` flag, the values
the X.509 helpers would return, and the state the extension walk left in
the result certificate. -/
structure PostIn where
  ta : Bool
  x_aki : Option Str
  x_ski : Option Str
  x_aia : Option Str
  x_crl : Option Str
  x_pubkey : Option Str
  purpose : CertPurpose
  mft : Option Str
  ipsz : Nat
  asz : Nat
  sia_present : Bool
  deriving DecidableEq, Repr

/-- The identity fields of the accepted certificate. -/
structure PostOut where
  aki : Option Str
  ski : Option Str
  aia : Option Str
  crl : Option Str
  pubkey : Option Str
  deriving DecidableEq, Repr

/-- The tail of `cert_parse_inner` (cert.c, from the `x509_get_aki` call
to the final CRL check): populate the fields, run the purpose switch and
the identity checks in source order, and return the accepted identity
fields or `none` for the `goto out` failure path. -/
def cert_parse_post (q : PostIn) : Option PostOut :=
  let aki := q.x_aki
  let ski := q.x_ski
  let aia := if q.ta then none else q.x_aia
  let crl := if q.ta then none else q.x_crl
  let purpose_ok : Option (Option Str) :=
    match q.purpose with
    | CertPurpose.ca =>
      if q.mft = none then none
      else if q.asz = 0 ∧ q.ipsz = 0 then none
      else some none
    | CertPurpose.bgpsec_router =>
      if q.x_pubkey = none then none
      else if q.ipsz > 0 then none
      else if q.sia_present then none
      else some q.x_pubkey
    | CertPurpose.invalid => none
  match purpose_ok with
  | none => none
  | some pubkey =>
    if ski = none then none
    else if q.ta ∧ aki ≠ none ∧ aki ≠ ski then none
    else if ¬q.ta ∧ aki = none then none
    else if ¬q.ta ∧ aki = ski then none
    else if ¬q.ta ∧ aia = none then none
    else if q.ta ∧ aia ≠ none then none
    else if q.ta ∧ crl ≠ none then none
    else some ⟨aki, ski, aia, crl, pubkey⟩

/-! # Theorems -/

/-! ## C2: `valid_ta` -/

/-- A certificate whose AS set holds an inherit entry at index 1 (its
index-0 entry being a plain id), empty IP set, fresh SKI. -/
def cert_c2ex : Cert :=
  { valid := 0, expires := 0, purpose := CertPurpose.ca, ips := [],
    as := [CertAs.as_id 5, CertAs.as_inherit], mft := none, notify := none,
    repo := none, crl := none, aia := none, aki := none,
    ski := some "AB".toList, tal := none, pubkey := none }

/-- C2 counterexample: `valid_ta` accepts `cert_c2ex` although one of its
AS entries (at index 1) has type inherit, so "returns 1 iff no AS entry at
any index has type inherit, no IP entry inherits, and the SKI is fresh" is
false: only the index-0 entry is consulted. -/
theorem C2_counterexample :
    valid_ta [] [] cert_c2ex = 1 ∧
    CertAs.as_inherit ∈ cert_c2ex.as := by
  decide

/-- C2 (amended): `valid_ta(file, tree, cert)` returns 1 iff the AS entry
at index 0 (when present) does not have type inherit, no IP entry of the
certificate has type inherit, and `cert.ski` is not already a key in the
authority tree. -/
theorem valid_ta_iff (fn : Str) (t : AuthTree) (c : Cert) :
    valid_ta fn t c = 1 ↔
      (∀ a0, c.as.head? = some a0 → a0.type ≠ CertAsType.as_inherit) ∧
      (∀ ip ∈ c.ips, ip.type ≠ CertIpType.inherit) ∧
      auth_find t c.ski = none := by
  have h1 : ((match c.as.head? with
      | some a0 => a0.type == CertAsType.as_inherit
      | none => false) = false) ↔
      (∀ a0, c.as.head? = some a0 → a0.type ≠ CertAsType.as_inherit) := by
    cases c.as.head? <;> simp
  have h2 : ((c.ips.any fun ip => ip.type == CertIpType.inherit) = false) ↔
      (∀ ip ∈ c.ips, ip.type ≠ CertIpType.inherit) := by
    simp [List.any_eq_true]
  have h3 : ((auth_find t c.ski).isSome = false) ↔
      auth_find t c.ski = none := by
    cases auth_find t c.ski <;> simp
  unfold valid_ta
  split_ifs with hA hB hC
  · exact ⟨fun h => absurd h (by decide),
      fun ⟨p1, _, _⟩ => absurd hA (by rw [h1.mpr p1]; simp)⟩
  · exact ⟨fun h => absurd h (by decide),
      fun ⟨_, p2, _⟩ => absurd hB (by rw [h2.mpr p2]; simp)⟩
  · exact ⟨fun h => absurd h (by decide),
      fun ⟨_, _, p3⟩ => absurd hC (by rw [h3.mpr p3]; simp)⟩
  · refine ⟨fun _ => ⟨h1.mp ?_, h2.mp ?_, h3.mp ?_⟩, fun _ => rfl⟩
    · exact Bool.not_eq_true _ ▸ (by simpa using hA)
    · simpa using hB
    · simpa using hC

/-! ## C4: `valid_roa` -/

/-- A trust-anchor certificate with no resources, keyed `P`. -/
def cert_ta4 : Cert :=
  { valid := 0, expires := 0, purpose := CertPurpose.ca, ips := [], as := [],
    mft := none, notify := none, repo := none, crl := none, aia := none,
    aki := none, ski := some "P".toList, tal := none, pubkey := none }

/-- The authority node wrapping `cert_ta4` with TAL identifier `tal1`. -/
def node_ta4 : AuthNode := ⟨"ta.cer".toList, "tal1".toList, cert_ta4⟩

/-- A one-authority tree rooted at `node_ta4`. -/
def tree4 : AuthTree := [[node_ta4]]

/-- A ROA naming `node_ta4` as parent, with one prefix the parent chain
does not cover. -/
def roa4 : Roa :=
  { ski := some "R".toList, aki := some "P".toList, tal := none,
    ips := [⟨Afi.ipv4, [11, 0, 0, 0], [11, 255, 255, 255],
            ⟨8, [11, 0, 0, 0]⟩⟩] }

/-- C4 counterexample: on `roa4` the return value is 0 (the prefix is not
covered), yet the ROA record is not left unchanged: its `tal` field was
already stamped with the parent's TAL right after the parent lookup. -/
theorem C4_counterexample :
    (valid_roa [] tree4 roa4).1 = 0 ∧
    (valid_roa [] tree4 roa4).2.tal ≠ roa4.tal := by
  decide

/-- C4 (amended): `valid_roa` stamps `roa.tal` with the located parent
authority's TAL as soon as the parent lookup succeeds, before the coverage
loop; it returns 1 iff the lookup succeeded and every ROA prefix is
IP-covered by the chain; only when the parent lookup fails is the ROA
record left unchanged. -/
theorem valid_roa_spec (fn : Str) (t : AuthTree) (roa : Roa) :
    (valid_ski_aki fn t roa.ski roa.aki = none →
      valid_roa fn t roa = (0, roa)) ∧
    (∀ a, valid_ski_aki fn t roa.ski roa.aki = some a →
      (valid_roa fn t roa).2 = { roa with tal := chain_tal a } ∧
      ((valid_roa fn t roa).1 = 1 ↔ roa_ips_covered a roa.ips = true)) := by
  constructor
  · intro h
    simp [valid_roa, h]
  · intro a h
    simp only [valid_roa, h]
    by_cases hc : roa_ips_covered a roa.ips <;> simp [hc]

/-- C4 witness: the amended statement applied at the concrete failing
input used in the counterexample. -/
theorem valid_roa_spec_witness :
    (valid_roa [] tree4 roa4).2 = { roa4 with tal := chain_tal [node_ta4] } ∧
    ((valid_roa [] tree4 roa4).1 = 1 ↔
      roa_ips_covered [node_ta4] roa4.ips = true) :=
  (valid_roa_spec [] tree4 roa4).2 [node_ta4] (by decide)

/-! ## C1: the coverage walks `valid_as` and `valid_ip` -/

theorem valid_as_walk (ch : AuthChain) (mn mx : Nat) :
    valid_as ch mn mx = 1 ↔
      first_definite (ch.map fun n => as_answer n.cert mn mx) = true := by
  induction ch with
  | nil => simp [valid_as, first_definite]
  | cons n rest ih =>
    by_cases h0 : n.cert.as = []
    · simp [valid_as, as_answer, h0, first_definite, ih]
    · have h0' : ¬n.cert.as.length = 0 := fun hh => h0 (List.length_eq_zero.mp hh)
      by_cases hpos : as_check_covered mn mx n.cert.as > 0
      · simp [valid_as, as_answer, h0, h0', hpos, first_definite]
      · by_cases hneg : as_check_covered mn mx n.cert.as < 0
        · simp [valid_as, as_answer, h0, h0', hpos, hneg, first_definite]
        · simp [valid_as, as_answer, h0, h0', hpos, hneg, first_definite, ih]

theorem valid_ip_walk (ch : AuthChain) (afi : Afi) (imn imx : List Nat) :
    valid_ip ch afi imn imx = 1 ↔
      first_definite (ch.map fun n => ip_answer n.cert afi imn imx) = true := by
  induction ch with
  | nil => simp [valid_ip, first_definite]
  | cons n rest ih =>
    by_cases hpos : ip_addr_check_covered afi imn imx n.cert.ips > 0
    · simp [valid_ip, ip_answer, hpos, first_definite]
    · by_cases hneg : ip_addr_check_covered afi imn imx n.cert.ips < 0
      · simp [valid_ip, ip_answer, hpos, hneg, first_definite]
      · simp [valid_ip, ip_answer, hpos, hneg, first_definite, ih]

/-- C1: `valid_as` and `valid_ip` return 1 exactly when, walking the
parent chain upward, the first ancestor whose three-valued containment
answer is definitive answers positively; an indeterminate ancestor (for
AS: empty set or an inherit answer; for IP: nothing authoritative for this
AFI) is skipped, a definitive refusal or an exhausted chain (NULL parent)
yields 0. -/
theorem coverage_walk_first_definite (ch : AuthChain) (mn mx : Nat)
    (afi : Afi) (imn imx : List Nat) :
    (valid_as ch mn mx = 1 ↔
      first_definite (ch.map fun n => as_answer n.cert mn mx) = true) ∧
    (valid_ip ch afi imn imx = 1 ↔
      first_definite (ch.map fun n => ip_answer n.cert afi imn imx) = true) :=
  ⟨valid_as_walk ch mn mx, valid_ip_walk ch afi imn imx⟩

/-! ## C10: termination and iteration count of `cert_insert_brks` -/

/-- A BGPsec router certificate whose only AS entry is the range 2--5. -/
def cert_c10w : Cert :=
  { valid := 0, expires := 7, purpose := CertPurpose.bgpsec_router,
    ips := [], as := [CertAs.as_range 2 5], mft := none, notify := none,
    repo := none, crl := none, aia := none, aki := none,
    ski := some "S".toList, tal := some "T".toList,
    pubkey := some "K".toList }

/-- C10: for an AS range entry with `min ≤ max ≤ 2^32 - 1` the expansion
loop of `cert_insert_brks` runs exactly `max - min + 1` times — the list
of visited AS ids has that length, every visited id (and hence every value
the `size_t` counter takes, including the final exiting increment) stays
strictly below `2^64`, so the counter cannot wrap — and a certificate
whose AS set is that single range performs exactly that many `insert_brk`
calls; the other entry kinds contribute one call (`id`) or none
(`inherit`), so the whole run is finite. -/
theorem brk_range_expansion (mn mx : Nat) (c : Cert)
    (h1 : mn ≤ mx) (h2 : mx ≤ 2 ^ 32 - 1)
    (hc : c.as = [CertAs.as_range mn mx]) :
    (range_asids mn mx).length = mx - mn + 1 ∧
    (∀ a ∈ range_asids mn mx, a + 1 < 2 ^ 64) ∧
    brk_insert_count c = mx - mn + 1 := by
  have hlen : (range_asids mn mx).length = mx + 1 - mn := by
    simp [range_asids]
  refine ⟨by omega, ?_, ?_⟩
  · intro a ha
    have hmem := List.mem_range'_1.mp ha
    omega
  · simp [brk_insert_count, hc, hlen]
    omega

/-- C10 witness: the iteration-count statement evaluated at the concrete
range 2--5. -/
theorem brk_range_expansion_witness :
    (range_asids 2 5).length = 5 - 2 + 1 ∧
    (∀ a ∈ range_asids 2 5, a + 1 < 2 ^ 64) ∧
    brk_insert_count cert_c10w = 5 - 2 + 1 :=
  brk_range_expansion 2 5 cert_c10w (by decide) (by decide) (by decide)

/-! ## C7: BRK collision handling (`insert_brk`) -/

theorem brk_key_unique {l : List Brk}
    (hu : l.Pairwise fun a b => brk_key a ≠ brk_key b)
    {x y : Brk} (hx : x ∈ l) (hy : y ∈ l) (h : brk_key x = brk_key y) :
    x = y := by
  induction l with
  | nil => cases hx
  | cons a rest ih =>
    rcases List.pairwise_cons.mp hu with ⟨ha, hrest⟩
    rcases List.mem_cons.mp hx with rfl | hx'
    · rcases List.mem_cons.mp hy with rfl | hy'
      · rfl
      · exact absurd h (ha y hy')
    · rcases List.mem_cons.mp hy with rfl | hy'
      · exact absurd h.symm (ha x hx')
      · exact ih hrest hx' hy'

theorem brk_filter_key_one {l : List Brk} {k : Nat × Str × Str}
    (hu : l.Pairwise fun a b => brk_key a ≠ brk_key b)
    {e : Brk} (he : e ∈ l) (hk : brk_key e = k) :
    (l.filter fun x => decide (brk_key x = k)).length = 1 := by
  induction l with
  | nil => cases he
  | cons a rest ih =>
    rcases List.pairwise_cons.mp hu with ⟨ha, hrest⟩
    rcases List.mem_cons.mp he with rfl | he'
    · have hnil : rest.filter (fun x => decide (brk_key x = k)) = [] := by
        rw [List.filter_eq_nil_iff]
        intro x hx
        simp only [decide_eq_true_eq]
        exact fun hxk => (ha x hx) (by rw [hk, hxk])
      simp [List.filter_cons, hk, hnil]
    · have hne : ¬brk_key a = k := fun hak =>
        (ha e he') (by rw [hak, hk])
      simp only [List.filter_cons, decide_eq_true_eq, hne, if_false]
      exact ih hrest he'

/-- The in-place update of `insert_brk` does not change the ordering
key. -/
theorem brk_upd_key (x : Brk) (k : Nat × Str × Str) (xp : Int) (tl : Str) :
    brk_key (if brk_key x = k
             then { x with expires := xp, tal := tl } else x) = brk_key x := by
  split <;> rfl

/-- C7: when the BRK synthesized by `insert_brk` from a certificate
collides with an existing entry under the key `(asid, ski, pubkey)`, the
resulting set has exactly one entry for that key; that entry carries the
later of the two expiry times with the TAL belonging to that expiry (the
certificate's TAL on replacement, the existing one otherwise); and when
the new expiry is not later the tree is completely unchanged, the new
record being dropped. -/
theorem insert_brk_collision (tree : List Brk) (cert : Cert) (asid : Nat)
    (s pk tl : Str) (e : Brk)
    (hski : cert.ski = some s) (hpk : cert.pubkey = some pk)
    (htal : cert.tal = some tl)
    (huniq : tree.Pairwise fun a b => brk_key a ≠ brk_key b)
    (hmem : e ∈ tree) (hkey : brk_key e = (asid, s, pk)) :
    ((insert_brk tree cert asid).filter
        (fun x => decide (brk_key x = (asid, s, pk)))).length = 1 ∧
    (∀ x ∈ insert_brk tree cert asid, brk_key x = (asid, s, pk) →
      x = if e.expires < cert.expires
          then { e with expires := cert.expires, tal := tl }
          else e) ∧
    (¬e.expires < cert.expires → insert_brk tree cert asid = tree) := by
  have hbk : brk_key ⟨asid, str_of cert.ski, str_of cert.pubkey,
      str_of cert.tal, cert.expires⟩ = (asid, s, pk) := by
    rw [hski, hpk]
    rfl
  have hfind : tree.find?
      (fun x => decide (brk_key x = (asid, s, pk))) = some e := by
    cases hf : tree.find? (fun x => decide (brk_key x = (asid, s, pk))) with
    | none =>
      have := List.find?_eq_none.mp hf e hmem
      simp [hkey] at this
    | some f =>
      have hpf := List.find?_some hf
      have hfmem := List.mem_of_find?_eq_some hf
      simp only [decide_eq_true_eq] at hpf
      rw [brk_key_unique huniq hfmem hmem (by rw [hpf, hkey])]
  have hfind2 : tree.find? (fun x => decide (brk_key x =
      brk_key ⟨asid, s, pk, tl, cert.expires⟩)) = some e := hfind
  have hins : insert_brk tree cert asid =
      if e.expires < cert.expires then
        tree.map (fun x =>
          if brk_key x = (asid, s, pk)
          then { x with expires := cert.expires, tal := tl }
          else x)
      else tree := by
    unfold insert_brk
    rw [hski, hpk, htal]
    simp only [str_of]
    rw [hfind2]
    rfl
  by_cases hexp : e.expires < cert.expires
  · rw [hins, if_pos hexp]
    refine ⟨?_, ?_, fun h => absurd hexp h⟩
    · rw [List.filter_map, List.length_map]
      have hcong : List.filter
          ((fun x => decide (brk_key x = (asid, s, pk))) ∘
            (fun x => if brk_key x = (asid, s, pk)
                      then { x with expires := cert.expires, tal := tl }
                      else x)) tree =
          List.filter (fun x => decide (brk_key x = (asid, s, pk))) tree := by
        apply List.filter_congr
        intro a _
        simp only [Function.comp_apply]
        rw [brk_upd_key]
      rw [hcong]
      exact brk_filter_key_one huniq hmem hkey
    · intro x hx hxk
      rcases List.mem_map.mp hx with ⟨y, hy, rfl⟩
      have hyk : brk_key y = (asid, s, pk) := by
        rw [← brk_upd_key y (asid, s, pk) cert.expires tl]
        exact hxk
      rw [brk_key_unique huniq hy hmem (hyk.trans hkey.symm)]
      rw [if_pos hexp, if_pos hkey]
  · rw [hins, if_neg hexp]
    refine ⟨brk_filter_key_one huniq hmem hkey, ?_, fun _ => rfl⟩
    intro x hx hxk
    rw [if_neg hexp]
    exact brk_key_unique huniq hx hmem (hxk.trans hkey.symm)

/-- The one-entry tree colliding with the C7 witness insertion. -/
def brk_tree7 : List Brk :=
  [⟨1, "s".toList, "k".toList, "t0".toList, 10⟩]

/-- The certificate whose BRK insertion collides in the C7 witness. -/
def cert_c7w : Cert :=
  { valid := 0, expires := 20, purpose := CertPurpose.bgpsec_router,
    ips := [], as := [CertAs.as_id 1], mft := none, notify := none,
    repo := none, crl := none, aia := none, aki := none,
    ski := some "s".toList, tal := some "t1".toList,
    pubkey := some "k".toList }

/-- C7 witness: the collision statement applied to a concrete one-entry
tree and a colliding certificate with a later expiry. -/
theorem insert_brk_collision_witness :
    ((insert_brk brk_tree7 cert_c7w 1).filter
        (fun x => decide (brk_key x = (1, "s".toList, "k".toList)))).length
      = 1 ∧
    (∀ x ∈ insert_brk brk_tree7 cert_c7w 1,
      brk_key x = (1, "s".toList, "k".toList) →
      x = if (10 : Int) < 20
          then { (⟨1, "s".toList, "k".toList, "t0".toList, 10⟩ : Brk) with
                 expires := 20, tal := "t1".toList }
          else ⟨1, "s".toList, "k".toList, "t0".toList, 10⟩) ∧
    (¬(10 : Int) < 20 → insert_brk brk_tree7 cert_c7w 1 = brk_tree7) := by
  have h := insert_brk_collision brk_tree7 cert_c7w 1
    "s".toList "k".toList "t1".toList
    ⟨1, "s".toList, "k".toList, "t0".toList, 10⟩
    rfl rfl rfl (by simp [brk_tree7]) (by simp [brk_tree7]) rfl
  exact h

/-! ## C5: identity-field constraints of `cert_parse_inner` -/

/-- C5: when the post-extension validation of `cert_parse_inner` accepts,
the identity constraints hold on the resulting record: for a trust anchor
any present AKI equals the SKI and both AIA and CRL are absent; for a
non-trust-anchor the AKI is present and differs from the SKI and the AIA
is present.  Contrapositively, every input violating these is rejected
(`none`). -/
theorem cert_parse_post_identity (q : PostIn) (out : PostOut)
    (h : cert_parse_post q = some out) :
    (q.ta = true → (∀ s, out.aki = some s → out.ski = some s) ∧
      out.aia = none ∧ out.crl = none) ∧
    (q.ta = false → out.aki ≠ none ∧ out.aki ≠ out.ski ∧ out.aia ≠ none) := by
  unfold cert_parse_post at h
  by_cases hta : q.ta = true
  · simp only [hta, if_true, ne_eq, not_true_eq_false, false_and, if_false,
      not_false_eq_true, true_and] at h
    split at h
    · exact absurd h (by simp)
    · split_ifs at h with h1 h2
      rcases Option.some.inj h with rfl
      refine ⟨fun _ => ⟨?_, rfl, rfl⟩, fun hf => absurd hta (by simp [hf])⟩
      intro s hs
      rcases not_and_or.mp h2 with hc | hc
      · rw [not_not.mp hc] at hs
        cases hs
      · show q.x_ski = some s
        rw [← not_not.mp hc]
        exact hs
  · have hta' : q.ta = false := by simpa using hta
    simp only [hta', Bool.false_eq_true, false_and, if_false, ne_eq,
      not_false_eq_true, true_and] at h
    split at h
    · exact absurd h (by simp)
    · split_ifs at h with h1 h2 h3 h4
      rcases Option.some.inj h with rfl
      exact ⟨fun htt => absurd htt (by simp [hta']), fun _ => ⟨h2, h3, h4⟩⟩

/-- The concrete non-TA input of the C5 witness: AKI `A`, SKI `B`,
AIA `U`, CA purpose with an mft and one IP resource. -/
def post_c5w : PostIn :=
  { ta := false, x_aki := some "A".toList, x_ski := some "B".toList,
    x_aia := some "U".toList, x_crl := none, x_pubkey := none,
    purpose := CertPurpose.ca, mft := some "M".toList, ipsz := 1,
    asz := 0, sia_present := false }

/-- C5 witness: the identity-constraint statement applied at a concrete
accepted non-TA input. -/
theorem cert_parse_post_identity_witness :
    (post_c5w.ta = true →
      (∀ s, (PostOut.mk (some "A".toList) (some "B".toList)
          (some "U".toList) none none).aki = some s →
        (PostOut.mk (some "A".toList) (some "B".toList)
          (some "U".toList) none none).ski = some s) ∧
      (PostOut.mk (some "A".toList) (some "B".toList)
          (some "U".toList) none none).aia = none ∧
      (PostOut.mk (some "A".toList) (some "B".toList)
          (some "U".toList) none none).crl = none) ∧
    (post_c5w.ta = false →
      (PostOut.mk (some "A".toList) (some "B".toList)
          (some "U".toList) none none).aki ≠ none ∧
      (PostOut.mk (some "A".toList) (some "B".toList)
          (some "U".toList) none none).aki ≠
        (PostOut.mk (some "A".toList) (some "B".toList)
          (some "U".toList) none none).ski ∧
      (PostOut.mk (some "A".toList) (some "B".toList)
          (some "U".toList) none none).aia ≠ none) :=
  cert_parse_post_identity post_c5w
    (PostOut.mk (some "A".toList) (some "B".toList)
      (some "U".toList) none none) (by decide)

/-! ## C6: `repo` is a byte-prefix of `mft` in every accepted SIA -/

/-- C6: whenever `sbgp_sia_resource` succeeds, both the rpkiManifest and
the caRepository strings are present and the repository URI is a
byte-prefix of the manifest URI; an SIA payload whose final `repo` is not
a byte-prefix of `mft` is rejected (the success case is impossible for
it). -/
theorem sia_repo_byte_pre_mft (entries : List SiaEntry) (st : SiaState)
    (h : sbgp_sia_resource entries = SiaResult.ok st) :
    ∃ m r, st.mft = some m ∧ st.repo = some r ∧ r.isPrefixOf m = true := by
  unfold sbgp_sia_resource at h
  cases hloop : sbgp_sia_loop ⟨none, none, none⟩ entries with
  | none =>
    rw [hloop] at h
    cases h
  | some st' =>
    rw [hloop] at h
    replace h : (match st'.mft, st'.repo with
        | some m, some r =>
          if List.isPrefixOf r m = true then SiaResult.ok st'
          else SiaResult.fail
        | _, _ => SiaResult.crash) = SiaResult.ok st := h
    rcases hm : st'.mft with _ | m <;> rcases hr : st'.repo with _ | r <;>
      rw [hm, hr] at h
    · cases h
    · cases h
    · cases h
    · replace h : (if List.isPrefixOf r m = true then SiaResult.ok st'
          else SiaResult.fail) = SiaResult.ok st := h
      split_ifs at h with hp
      rcases SiaResult.ok.inj h with rfl
      exact ⟨m, r, hm, hr, hp⟩

/-- C6 witness: a concrete two-entry SIA payload (caRepository
`rsync://x/`, rpkiManifest `rsync://x/m.mft`) is accepted and exhibits the
prefix property. -/
theorem sia_repo_byte_pre_mft_witness :
    ∃ m r,
      (SiaState.mk (some "rsync://x/m.mft".toList) none
        (some "rsync://x/".toList)).mft = some m ∧
      (SiaState.mk (some "rsync://x/m.mft".toList) none
        (some "rsync://x/".toList)).repo = some r ∧
      r.isPrefixOf m = true :=
  sia_repo_byte_pre_mft
    [⟨SiaOid.carepo, "rsync://x/".toList⟩,
     ⟨SiaOid.mft, "rsync://x/m.mft".toList⟩]
    (SiaState.mk (some "rsync://x/m.mft".toList) none
      (some "rsync://x/".toList))
    (by decide)

/-! ## C9: the final SIA comparison is reachable with absent strings -/

/-- C9: an SIA payload all of whose accessDescription entries parse
successfully (here: a single rpkiNotify entry) still reaches the final
`strstr(p->res->mft, p->res->repo)` comparison with both strings NULL,
which is undefined behaviour in the C code — the claimed unreachability of
the null case is wrong, the comparison lacks a NULL guard. -/
theorem sia_crash_on_missing_mft :
    sbgp_sia_resource
      [⟨SiaOid.notify, "https://r.example/n.xml".toList⟩] =
      SiaResult.crash := by
  decide

/-! ## C3: the serializer round trip -/

theorem io_str_round (o : Option Str) (rest : List Tok) (h : o ≠ some []) :
    io_read_str (io_str_buffer o ++ rest) = some (o, rest) := by
  cases o with
  | none => simp [io_str_buffer, io_read_str]
  | some s =>
    cases s with
    | nil => exact absurd rfl h
    | cons c cs => simp [io_str_buffer, io_read_str]

theorem ip_addr_round (a : IpAddr) (rest : List Tok) :
    ip_addr_read (ip_addr_buffer a ++ rest) = some (a, rest) := by
  rcases a with ⟨pl, ad⟩
  simp [ip_addr_buffer, ip_addr_read]

theorem cert_ip_round (p : CertIp) (rest : List Tok)
    (h : p.payload = IpPayload.inherit →
      p.min = zeros16 ∧ p.max = zeros16) :
    cert_ip_read (cert_ip_buffer p ++ rest) = some (p, rest) := by
  rcases p with ⟨afi, mn, mx, pl⟩
  cases pl with
  | inherit =>
    rcases h rfl with ⟨h1, h2⟩
    subst h1
    subst h2
    simp [cert_ip_buffer, cert_ip_read, CertIp.type]
  | addr a =>
    simp [cert_ip_buffer, cert_ip_read, CertIp.type, ip_addr_buffer,
      ip_addr_read]
  | range amn amx =>
    simp [cert_ip_buffer, cert_ip_read, CertIp.type, ip_addr_range_buffer,
      ip_addr_buffer, ip_addr_read]

theorem cert_as_round (p : CertAs) (rest : List Tok) :
    cert_as_read (cert_as_buffer p ++ rest) = some (p, rest) := by
  cases p <;> simp [cert_as_buffer, cert_as_read, CertAs.type]

theorem readN_round {α : Type} (rd : List Tok → Option (α × List Tok))
    (buf : α → List Tok) (l : List α) (rest : List Tok)
    (h : ∀ a ∈ l, ∀ r, rd (buf a ++ r) = some (a, r)) :
    readN rd l.length ((l.map buf).flatten ++ rest) = some (l, rest) := by
  induction l with
  | nil => simp [readN]
  | cons a as_ ih =>
    have hbuf := h a (List.mem_cons_self a as_)
      ((as_.map buf).flatten ++ rest)
    have hrest := ih (fun x hx r => h x (List.mem_cons_of_mem a hx) r)
    simp [readN, List.append_assoc, hbuf, hrest]

/-- C3: deserializing the serialization of a parsed certificate record
restores every field: for any record satisfying the parser-side invariants
(inherit IP entries carry the zeroed `min`/`max` bytes, no string field is
the non-NULL empty string — the wire format writes NULL and `""`
identically — and the reader's asserts hold: an mft is present unless the
purpose is BGPsec router, and the SKI is present),
`cert_read (cert_buffer c ++ rest)` yields exactly `c` and leaves
`rest`. -/
theorem cert_buffer_read_round (c : Cert) (rest : List Tok)
    (hips : ∀ ip ∈ c.ips, ip.payload = IpPayload.inherit →
      ip.min = zeros16 ∧ ip.max = zeros16)
    (hmft : c.mft ≠ some []) (hnotify : c.notify ≠ some [])
    (hrepo : c.repo ≠ some []) (hcrl : c.crl ≠ some [])
    (haia : c.aia ≠ some []) (haki : c.aki ≠ some [])
    (hski : c.ski ≠ some []) (htal : c.tal ≠ some [])
    (hpubkey : c.pubkey ≠ some [])
    (hassert1 : c.mft ≠ none ∨ c.purpose = CertPurpose.bgpsec_router)
    (hassert2 : c.ski ≠ none) :
    cert_read (cert_buffer c ++ rest) = some (c, rest) := by
  rcases c with ⟨valid, expires, purpose, ips, ass, mft, notify, repo, crl,
    aia, aki, ski, tal, pubkey⟩
  simp only at hips hmft hnotify hrepo hcrl haia haki hski htal hpubkey hassert1 hassert2
  have hreadips : ∀ r, readN cert_ip_read ips.length
      ((ips.map cert_ip_buffer).flatten ++ r) = some (ips, r) :=
    fun r => readN_round cert_ip_read cert_ip_buffer ips r
      (fun a ha r2 => cert_ip_round a r2 (hips a ha))
  have hreadas : ∀ r, readN cert_as_read ass.length
      ((ass.map cert_as_buffer).flatten ++ r) = some (ass, r) :=
    fun r => readN_round cert_as_read cert_as_buffer ass r
      (fun a _ r2 => cert_as_round a r2)
  have hs1 := fun r => io_str_round mft r hmft
  have hs2 := fun r => io_str_round notify r hnotify
  have hs3 := fun r => io_str_round repo r hrepo
  have hs4 := fun r => io_str_round crl r hcrl
  have hs5 := fun r => io_str_round aia r haia
  have hs6 := fun r => io_str_round aki r haki
  have hs7 := fun r => io_str_round ski r hski
  have hs8 := fun r => io_str_round tal r htal
  have hs9 := fun r => io_str_round pubkey r hpubkey
  have hcond : ¬(mft = none ∧ purpose ≠ CertPurpose.bgpsec_router) := by
    rcases hassert1 with h | h
    · exact fun hx => h hx.1
    · exact fun hx => hx.2 h
  simp only [cert_buffer, List.append_assoc, List.cons_append,
    List.nil_append]
  simp only [cert_read, hreadips, hreadas, hs1, hs2, hs3, hs4, hs5, hs6,
    hs7, hs8, hs9]
  simp [hcond, hassert2]

/-- A concrete parsed-shape certificate exercising every serializer case:
a prefix entry, an inherit entry (zeroed `min`/`max`), all three AS entry
kinds and a mix of present and absent strings. -/
def cert_c3w : Cert :=
  { valid := 1, expires := 100, purpose := CertPurpose.ca,
    ips := [⟨Afi.ipv4, [10, 0, 0, 0], [10, 255, 255, 255],
              IpPayload.addr ⟨8, [10]⟩⟩,
            ⟨Afi.ipv6, zeros16, zeros16, IpPayload.inherit⟩],
    as := [CertAs.as_id 5, CertAs.as_range 2 4, CertAs.as_inherit],
    mft := some "rsync://x/m.mft".toList, notify := none,
    repo := some "rsync://x/".toList, crl := none,
    aia := some "rsync://a/c.cer".toList, aki := some "AK".toList,
    ski := some "SK".toList, tal := some "T".toList, pubkey := none }

/-- C3 witness: the round trip evaluated on the concrete record
`cert_c3w`. -/
theorem cert_buffer_read_round_witness :
    cert_read (cert_buffer cert_c3w ++ []) = some (cert_c3w, []) :=
  cert_buffer_read_round cert_c3w [] (by decide) (by decide) (by decide)
    (by decide) (by decide) (by decide) (by decide) (by decide) (by decide)
    (by decide) (by decide) (by decide)

/-! ## C8: `valid_filename` -/

theorem tolower_shift (c : Char) (h1 : 'A' ≤ c) (h2 : c ≤ 'Z') :
    (Char.ofNat (c.toNat + 32)).toNat = c.toNat + 32 := by
  have hv : 65 ≤ c.toNat := h1
  have hv2 : c.toNat ≤ 90 := h2
  have hvalid : Nat.isValidChar (c.toNat + 32) := Or.inl (by omega)
  unfold Char.ofNat
  rw [dif_pos hvalid]
  simp [Char.toNat, Char.ofNatAux, UInt32.toNat, BitVec.toNat_ofNatLt]

theorem c_tolower_eq_dot {c : Char} (h : c_tolower c = '.') : c = '.' := by
  unfold c_tolower at h
  split_ifs at h with hc
  · exfalso
    have h12 : 'A' ≤ c ∧ c ≤ 'Z' := by simpa using hc
    have h1 : 'A' ≤ c := h12.1
    have h2 : c ≤ 'Z' := h12.2
    have hn := congrArg Char.toNat h
    rw [tolower_shift c h1 h2] at hn
    have hv : 65 ≤ c.toNat := h1
    have hdot : ('.').toNat = 46 := rfl
    omega
  · exact h

theorem strrchr_idx_eq_none_iff (s : Str) (c : Char) :
    strrchr_idx s c = none ↔ c ∉ s := by
  induction s with
  | nil => simp [strrchr_idx]
  | cons a rest ih =>
    simp only [strrchr_idx]
    cases h : strrchr_idx rest c with
    | some i =>
      have hc : c ∈ rest := by
        by_contra hnc
        rw [ih.mpr hnc] at h
        cases h
      simp [hc]
    | none =>
      have hrest : c ∉ rest := ih.mp h
      by_cases hac : a == c
      · have : a = c := by simpa using hac
        simp [hac, this]
      · have : ¬a = c := by simpa using hac
        simp [hac, hrest, this, Ne.symm this]

theorem chr_idx_eq_iff (s : Str) (c : Char) :
    strchr_idx s c = strrchr_idx s c ↔ s.count c ≤ 1 := by
  induction s with
  | nil => simp [strchr_idx, strrchr_idx]
  | cons a rest ih =>
    by_cases hac : a == c
    · have haceq : a = c := by simpa using hac
      subst haceq
      cases hr : strrchr_idx rest a with
      | none =>
        have hnm : a ∉ rest := (strrchr_idx_eq_none_iff rest a).mp hr
        have hcount : rest.count a = 0 := List.count_eq_zero.mpr hnm
        simp [strchr_idx, strrchr_idx, hr, List.count_cons, hcount]
      | some i =>
        have hm : a ∈ rest := by
          by_contra hnc
          rw [(strrchr_idx_eq_none_iff rest a).mpr hnc] at hr
          cases hr
        have hcount : 0 < rest.count a := List.count_pos_iff.mpr hm
        simp only [strchr_idx, strrchr_idx, hr, beq_self_eq_true, if_true,
          List.count_cons]
        constructor
        · intro hh
          exact absurd (Option.some.inj hh) (by omega)
        · intro hh
          exact absurd hh (by omega)
    · have hanec : ¬a = c := by simpa using hac
      have h1 : strchr_idx (a :: rest) c = (strchr_idx rest c).map (· + 1) := by
        simp [strchr_idx, hac]
      have h2 : strrchr_idx (a :: rest) c =
          (strrchr_idx rest c).map (· + 1) := by
        simp only [strrchr_idx]
        cases strrchr_idx rest c <;> simp [hac]
      have h3 : (a :: rest).count c = rest.count c := by
        simp [List.count_cons, hac]
      rw [h1, h2, h3, ← ih]
      cases strchr_idx rest c <;> cases strrchr_idx rest c <;> simp

theorem dot_mem_of_suffix (fn : Str) (t : Str)
    (h : (fn.drop (fn.length - 4)).map c_tolower = '.' :: t) :
    '.' ∈ fn := by
  cases hd : fn.drop (fn.length - 4) with
  | nil =>
    rw [hd] at h
    cases h
  | cons c cs =>
    rw [hd] at h
    have hc : c_tolower c = '.' := (List.cons.inj (by simpa using h)).1
    have hmem : c ∈ fn.drop (fn.length - 4) := by
      rw [hd]
      exact List.mem_cons_self c cs
    have : c ∈ fn := (List.drop_suffix _ _).subset hmem
    rwa [c_tolower_eq_dot hc] at this

theorem casecmp_lit (s : Str) (lit : Str)
    (hlit : lit.map c_tolower = lit) :
    str_casecmp_eq s lit = true ↔ s.map c_tolower = lit := by
  unfold str_casecmp_eq
  rw [hlit]
  exact beq_iff_eq

/-- C8: `valid_filename(fn)` returns 1 iff `fn` has length at least 5,
every character of `fn` is in `[A-Za-z0-9._-]`, `fn` contains exactly one
dot, and `fn` ends case-insensitively in `.cer`, `.crl`, `.gbr` or
`.roa`. -/
theorem valid_filename_iff (fn : Str) :
    valid_filename fn = 1 ↔ filename_spec fn := by
  by_cases h1 : fn.length < 5
  · have hcode : valid_filename fn = 0 := by
      unfold valid_filename
      rw [if_pos h1]
    have hspec : ¬filename_spec fn := fun hs => by
      have := hs.1
      omega
    simp [hcode, hspec]
  · by_cases h2 : fn.all filename_char_ok
    · by_cases h3 : strchr_idx fn '.' = strrchr_idx fn '.'
      · have hcode : valid_filename fn = 1 ↔
            (str_casecmp_eq (fn.drop (fn.length - 4)) ".cer".toList = true ∨
             str_casecmp_eq (fn.drop (fn.length - 4)) ".crl".toList = true ∨
             str_casecmp_eq (fn.drop (fn.length - 4)) ".gbr".toList = true ∨
             str_casecmp_eq (fn.drop (fn.length - 4)) ".roa".toList = true) := by
          unfold valid_filename
          rw [if_neg h1, if_neg (by simp [h2]), if_neg (fun hcon => hcon h3)]
          split_ifs with e1 e2 e3 e4
          · exact ⟨fun _ => Or.inl e1, fun _ => rfl⟩
          · exact ⟨fun _ => Or.inr (Or.inl e2), fun _ => rfl⟩
          · exact ⟨fun _ => Or.inr (Or.inr (Or.inl e3)), fun _ => rfl⟩
          · exact ⟨fun _ => Or.inr (Or.inr (Or.inr e4)), fun _ => rfl⟩
          · constructor
            · intro hh
              exact absurd hh (by decide)
            · rintro (h | h | h | h)
              · exact absurd h e1
              · exact absurd h e2
              · exact absurd h e3
              · exact absurd h e4
        rw [hcode]
        have hc1 := casecmp_lit (fn.drop (fn.length - 4)) ".cer".toList
          (by decide)
        have hc2 := casecmp_lit (fn.drop (fn.length - 4)) ".crl".toList
          (by decide)
        have hc3 := casecmp_lit (fn.drop (fn.length - 4)) ".gbr".toList
          (by decide)
        have hc4 := casecmp_lit (fn.drop (fn.length - 4)) ".roa".toList
          (by decide)
        constructor
        · intro hE
          have hmap : (fn.drop (fn.length - 4)).map c_tolower = ".cer".toList ∨
              (fn.drop (fn.length - 4)).map c_tolower = ".crl".toList ∨
              (fn.drop (fn.length - 4)).map c_tolower = ".gbr".toList ∨
              (fn.drop (fn.length - 4)).map c_tolower = ".roa".toList := by
            rcases hE with h | h | h | h
            · exact Or.inl (hc1.mp h)
            · exact Or.inr (Or.inl (hc2.mp h))
            · exact Or.inr (Or.inr (Or.inl (hc3.mp h)))
            · exact Or.inr (Or.inr (Or.inr (hc4.mp h)))
          have hdot : '.' ∈ fn := by
            rcases hmap with h | h | h | h
            · exact dot_mem_of_suffix fn _ h
            · exact dot_mem_of_suffix fn _ h
            · exact dot_mem_of_suffix fn _ h
            · exact dot_mem_of_suffix fn _ h
          have hle : fn.count '.' ≤ 1 := (chr_idx_eq_iff fn '.').mp h3
          have hge : 0 < fn.count '.' := List.count_pos_iff.mpr hdot
          exact ⟨by omega, List.all_eq_true.mp h2, by omega, hmap⟩
        · rintro ⟨hl, hchars, hcount, hdisj⟩
          rcases hdisj with h | h | h | h
          · exact Or.inl (hc1.mpr h)
          · exact Or.inr (Or.inl (hc2.mpr h))
          · exact Or.inr (Or.inr (Or.inl (hc3.mpr h)))
          · exact Or.inr (Or.inr (Or.inr (hc4.mpr h)))
      · have hcode : valid_filename fn = 0 := by
          unfold valid_filename
          rw [if_neg h1, if_neg (by simp [h2]), if_pos h3]
        have hspec : ¬filename_spec fn := by
          intro hs
          exact h3 ((chr_idx_eq_iff fn '.').mpr (le_of_eq hs.2.2.1))
        simp [hcode, hspec]
    · have hcode : valid_filename fn = 0 := by
        unfold valid_filename
        rw [if_neg h1, if_pos (by simp [h2])]
      have hspec : ¬filename_spec fn := by
        intro hs
        exact h2 (List.all_eq_true.mpr hs.2.1)
      simp [hcode, hspec]

end Rpki
